import Mathlib

/-!
Shallow embedding of the composite-image pipeline of `gvpreview.py`
(repository appf-anu/gvpreview).

Python strings are modelled as `List Char`, Python `int` as `Int` (or `Nat`
where the source value is necessarily a natural number), raised exceptions as
`Except PyErr`, and the mutable numpy raster as a total function from
coordinates to byte values.  Python `%` and `//` on `int` are floor-style
operations, embedded as `Int.fmod` and `Int.fdiv`.
-/

/-- Python exceptions that the embedded code can raise.  The source raises
`ValueError`, `NotImplementedError` and (through an unbound local in the
directory branch of `gather_images`) `NameError`/`UnboundLocalError`. -/
inductive PyErr : Type
  | valueError (msg : String)
  | notImplementedError (msg : String)
  | nameError (msg : String)
  deriving Repr, DecidableEq, BEq

/-- Regex class `\d` on the ASCII range (decimal digit). -/
def pyIsDigit (c : Char) : Bool := decide ('0' ≤ c) && decide (c ≤ '9')

/-- Python regex whitespace class `\s` restricted to ASCII; `\S` is its
negation. -/
def pyIsSpace (c : Char) : Bool :=
  c = ' ' || c = '\t' || c = '\n' || c = '\r' || c = '\x0b' || c = '\x0c'

/-- Value of a decimal digit string, as computed by Python `int(...)` on a
string of digits. -/
def digitsToNat (s : List Char) : Nat :=
  s.foldl (fun n c => 10 * n + (c.toNat - '0'.toNat)) 0

/-- Python `str.lower()` on the ASCII strings used for fill orders. -/
def toLowerList (s : List Char) : List Char := s.map Char.toLower

/-- Embedding of `XbyY2XY` (gvpreview.py lines 33-44): Python
`re.match(r"(\d+)x(\d+)", xbyy, re.I)`.  `re.match` anchors at the start
only, so the first group is the maximal leading digit run, then one `x` or
`X`, then at least one digit; any trailing characters are ignored.  On a
failed match the source raises `ValueError` (the embedded message drops the
input string and paraphrases the apostrophe away). -/
def XbyY2XY (s : List Char) : Except PyErr (Nat × Nat) :=
  let d1 := s.takeWhile pyIsDigit
  match s.dropWhile pyIsDigit with
  | c :: r2 =>
    if d1 ≠ [] ∧ (c = 'x' ∨ c = 'X') then
      let d2 := r2.takeWhile pyIsDigit
      if d2 ≠ [] then .ok (digitsToNat d1, digitsToNat d2)
      else .error (.valueError "does not appear to be in XxY format")
    else .error (.valueError "does not appear to be in XxY format")
  | [] => .error (.valueError "does not appear to be in XxY format")

/-- Grammar stated by the spec for dimension strings: the fully anchored
regex `^\d+x\d+$` (case-insensitive).  Written from the spec wording, to be
compared with the behaviour of `XbyY2XY`. -/
def matchesAnchoredXbyY (s : List Char) : Bool :=
  let d1 := s.takeWhile pyIsDigit
  match s.dropWhile pyIsDigit with
  | c :: r2 =>
    decide (d1 ≠ []) && (decide (c = 'x') || decide (c = 'X')) &&
      decide (r2 ≠ []) && r2.all pyIsDigit
  | [] => false

/-- A string that begins with a `\d+[xX]\d+` match, with arbitrary trailing
characters: the start-anchored (but not end-anchored) reading of the grammar,
expressed as an explicit decomposition. -/
def xbyyStartForm (s : List Char) : Prop :=
  ∃ d1 c d2 rest, s = d1 ++ c :: d2 ++ rest ∧ d1 ≠ [] ∧ d1.all pyIsDigit ∧
    (c = 'x' ∨ c = 'X') ∧ d2 ≠ [] ∧ d2.all pyIsDigit

/-- Embedding of `index2rowcol` (gvpreview.py lines 47-75).  The range check
runs before the order is inspected; `colsleft` returns before its
`NotImplementedError` line (dead code in the source), `rowsdown`/`rowsup`
raise `NotImplementedError`, anything else raises `ValueError`.  Python `%`
and `//` are `Int.fmod`/`Int.fdiv`. -/
def index2rowcol (index rows cols : Int) (order : List Char) :
    Except PyErr (Int × Int) :=
  if rows * cols ≤ index then
    .error (.valueError "index is larger than it should be given rowsXcols")
  else
    let o := toLowerList order
    if o = ("colsright".toList) then .ok (Int.fmod index rows, Int.fdiv index rows)
    else if o = ("colsleft".toList) then .ok (Int.fmod index rows, Int.fdiv index rows)
    else if o = ("rowsdown".toList) then .error (.notImplementedError "rowsdown not done yet")
    else if o = ("rowsup".toList) then .error (.notImplementedError "rowsup not done yet")
    else .error (.valueError "Bad order")

/-- Python `os.path.basename`: the part of the path after the last slash. -/
def basename (path : List Char) : List Char :=
  ((path.reverse).takeWhile (fun c => c ≠ '/')).reverse

/-- Match exactly `k` digits (regex `\d{k}`), returning the consumed
characters and the remainder. -/
def matchNDigits : Nat → List Char → Option (List Char × List Char)
  | 0, s => some ([], s)
  | _ + 1, [] => none
  | k + 1, c :: s =>
    if pyIsDigit c then (matchNDigits k s).map (fun p => (c :: p.1, p.2))
    else none

/-- Match one `_\d{2}` group. -/
def matchUPair : List Char → Option (List Char × List Char)
  | '_' :: a :: b :: s =>
    if pyIsDigit a && pyIsDigit b then some (['_', a, b], s) else none
  | _ => none

/-- Match `k` consecutive `_\d{2}` groups. -/
def matchUPairs : Nat → List Char → Option (List Char × List Char)
  | 0, s => some ([], s)
  | k + 1, s => do
    let (p, s1) ← matchUPair s
    let (ps, s2) ← matchUPairs k s1
    pure (p ++ ps, s2)

/-- Match the fixed date prefix `\d{4}_\d{2}_\d{2}_\d{2}_\d{2}_\d{2}` of the
filename regex (gvpreview.py line 90). -/
def matchDateFixed (s : List Char) : Option (List Char × List Char) := do
  let (d4, s1) ← matchNDigits 4 s
  let (ps, s2) ← matchUPairs 5 s1
  pure (d4 ++ ps, s2)

/-- Case-insensitive literal match (the filename regex carries `re.I`);
returns the input characters as consumed, preserving their case, exactly as
a Python match group would. -/
def matchCI : List Char → List Char → Option (List Char × List Char)
  | [], s => some ([], s)
  | _ :: _, [] => none
  | a :: as, c :: cs =>
    if Char.toLower c = Char.toLower a then
      (matchCI as cs).map (fun p => (c :: p.1, p.2))
    else none

/-- First-match-wins alternation, as Python tries `jpg|jpeg|tif|tiff` left to
right. -/
def matchAltCI : List (List Char) → List Char → Option (List Char × List Char)
  | [], _ => none
  | alt :: alts, s =>
    match matchCI alt s with
    | some p => some p
    | none => matchAltCI alts s

/-- The extension alternatives of the filename regex, in source order. -/
def extAlts : List (List Char) :=
  ["jpg".toList, "jpeg".toList, "tif".toList, "tiff".toList]

/-- Match `.(jpg|jpeg|tif|tiff)`: the unescaped regex dot consumes any one
character except a newline, then the alternation; returns the dot character,
the matched extension text, and the remainder. -/
def matchDotExt : List Char → Option (Char × List Char × List Char)
  | [] => none
  | x :: s =>
    if x = '\n' then none
    else (matchAltCI extAlts s).map (fun p => (x, p.1, p.2))

/-- Backtracking for the greedy `(\d+)` before the extension: the digit run
is consumed in full first, then shortened from the right (each dropped digit
is pushed back onto the remainder) until `.(jpg|jpeg|tif|tiff)` matches.
The digit run is passed reversed so that shortening is structural. -/
def shrinkSeq : List Char → List Char → Option (List Char × Char × List Char × List Char)
  | [], _ => none
  | d :: dsRev, rest =>
    match matchDotExt rest with
    | some (x, e, r) => some (d :: dsRev, x, e, r)
    | none => shrinkSeq dsRev (d :: rest)

/-- Match the tail `_(\d+).(jpg|jpeg|tif|tiff)` of the filename regex,
returning (sequence digits, dot character, extension text, remainder). -/
def matchTail : List Char → Option (List Char × Char × List Char × List Char)
  | '_' :: s =>
    let run := s.takeWhile pyIsDigit
    let rest := s.dropWhile pyIsDigit
    if run = [] then none
    else (shrinkSeq run.reverse rest).map
      (fun q => (q.1.reverse, q.2.1, q.2.2.1, q.2.2.2))
  | _ => none

/-- Greedy `(_\d{2})+` followed by the tail, with Python backtracking: the
repetition extends as far as a later tail match allows, preferring more
repetitions.  Returns (pairs text, sequence digits, dot char, extension,
remainder). -/
def pairsThenTail : List Char → Option (List Char × List Char × Char × List Char × List Char)
  | '_' :: a :: b :: s =>
    if pyIsDigit a && pyIsDigit b then
      match pairsThenTail s with
      | some (ps, ds, x, e, r) => some ('_' :: a :: b :: ps, ds, x, e, r)
      | none =>
        (matchTail s).map (fun q => (['_', a, b], q.1, q.2.1, q.2.2.1, q.2.2.2))
    else none
  | _ => none

/-- Match everything after `<camname>_`: the date group (fixed part plus the
greedy extra pairs) and the tail.  Returns (date text, sequence digits, dot
char, extension, remainder). -/
def matchAfterCam (r : List Char) : Option (List Char × List Char × Char × List Char × List Char) := do
  let (dfix, s1) ← matchDateFixed r
  let (ps, ds, x, e, rest) ← pairsThenTail s1
  pure (dfix ++ ps, ds, x, e, rest)

/-- Greedy `(\S+)` for the camera name: try the longest all-non-whitespace
prefix first, require a literal `_` after it, and shorten on failure, exactly
as the Python engine backtracks.  `k` is the candidate length. -/
def tryCamK (fn : List Char) : Nat → Option (List Char × List Char × List Char × Char × List Char × List Char)
  | 0 => none
  | k + 1 =>
    let cam := fn.take (k + 1)
    let rest := fn.drop (k + 1)
    if cam.all (fun c => !(pyIsSpace c)) then
      match rest with
      | '_' :: r =>
        match matchAfterCam r with
        | some (d, ds, x, e, rr) => some (cam, d, ds, x, e, rr)
        | none => tryCamK fn k
      | _ => tryCamK fn k
    else tryCamK fn k

/-- Full `re.match` of the filename regex (gvpreview.py line 90) against a
basename: returns (camname, date, sequence digits, dot char, extension,
remainder). -/
def matchFileRegex (fn : List Char) :
    Option (List Char × List Char × List Char × Char × List Char × List Char) :=
  tryCamK fn fn.length

/-- Embedding of `filename2dateidx` (gvpreview.py lines 88-98): basename,
regex match, and `int(m[4]) - 1` for the stored index (Python subtraction on
unbounded ints, hence `Int`).  The error message paraphrases the apostrophe
away. -/
def filename2dateidx (path : List Char) :
    Except PyErr (List Char × List Char × Int × List Char) :=
  match matchFileRegex (basename path) with
  | none => .error (.valueError "does not seem to be in the correct file naming format")
  | some (c, d, ds, _x, e, _rest) => .ok (c, d, (digitsToNat ds : Int) - 1, e)

/-- A pixel raster, modelled as a total function row → column → channel →
byte value.  The numpy arrays of the source are `uint8`, three channels. -/
def Pix : Type := Nat → Nat → Nat → Nat

/-- Embedding of class `CompositeImage` (gvpreview.py lines 125-154):
`dims` is the grid (rows, cols), `subdims` the per-cell (height, width),
`image` the raster. -/
structure CompositeImage where
  dims : Nat × Nat
  subdims : Nat × Nat
  image : Pix

/-- The constructor `CompositeImage.__init__`: a zero-filled raster of shape
(rows·cell_h, cols·cell_w, 3). -/
def CompositeImage.blank (dims subdims : Nat × Nat) : CompositeImage :=
  ⟨dims, subdims, fun _ _ _ => 0⟩

/-- Embedding of `CompositeImage.set_subimage` (gvpreview.py lines 148-154):
numpy slice assignment `image[top:bottom, left:right, ...] = img` for a
sub-image whose shape equals `subdims` with three channels.  Positions are
`Int` because the caller can produce a negative column for a negative index.
The update covers exactly the target window; numpy behaviour on clipped or
empty slices (a broadcast `ValueError`) is checked by the orchestrator
before this update is applied. -/
def CompositeImage.set_subimage (ci : CompositeImage) (pos : Int × Int)
    (img : Pix) : CompositeImage :=
  let top := pos.1 * (ci.subdims.1 : Int)
  let left := pos.2 * (ci.subdims.2 : Int)
  { ci with
    image := fun r c k =>
      if top ≤ (r : Int) ∧ (r : Int) < top + (ci.subdims.1 : Int) ∧
          left ≤ (c : Int) ∧ (c : Int) < left + (ci.subdims.2 : Int) then
        img ((r : Int) - top).toNat ((c : Int) - left).toNat k
      else ci.image r c k }

/-- Modelled from the spec: the resizer `downsize` delegates to skimage
(external to this repository); per spec 4.4 it returns an image of exactly
the target size with three channels.  Pixel content produced by the
interpolation is outside the model, so the content function is passed
through; only the shape contract matters to the callers embedded here. -/
def downsize (pix : Pix) (size : Nat × Nat) : Pix :=
  let _ := size
  pix

/-- One candidate source file: its name, whether `imageio.imread` would
decode it (the decoder is an external collaborator), and its decoded
pixels. -/
structure FileEntry where
  name : List Char
  decodeOk : Bool
  pix : Pix

/-- The input of `gather_images`: a directory (with its listing in the
arbitrary order that `glob.glob` returns, i.e. filesystem order) or a tar
archive (with its entries in archive order). -/
inductive Source
  | dir (base : List Char) (listing : List FileEntry)
  | tar (entries : List FileEntry)

/-- One observable step of the `gather_images` generator: a skip diagnostic
printed to stderr, or a yielded `Image` namedtuple (filename, camname, date,
index, ext, pixels). -/
inductive GatherStep
  | diag (name : List Char) (err : PyErr)
  | yielded (filename camname date : List Char) (idx : Int) (ext : List Char) (pix : Pix)

/-- Result of running the generator to exhaustion: the steps it produced and
the exception, if any, that it raises after them (the unbound `entry` in the
directory branch). -/
structure GatherOut where
  steps : List GatherStep
  post : Option PyErr

/-- fnmatch of the glob pattern `*.ext`: the name must end in `.ext`
(case-sensitive) and, per glob, must not be a dotfile. -/
def globMatch (fmt : List Char) (name : List Char) : Bool :=
  (match name with
   | [] => false
   | c :: _ => decide (c ≠ '.')) &&
  decide (('.' :: fmt) <:+ name)

/-- Message of the Python `UnboundLocalError` (a `NameError` subclass)
raised when the directory branch skip handler reads the never-assigned
local `entry`. -/
def entryUnboundMsg : String :=
  "cannot access local variable entry where it is not associated with a value"

/-- The exception `imageio.imread` raises on an undecodable file, modelled
as a `ValueError` (the decoder is an external collaborator). -/
def decodeErr : PyErr := .valueError "could not read image"

/-- Directory branch of `gather_images` (gvpreview.py lines 103-112), after
the glob filter: parse, decode, yield if the matched extension equals the
requested format.  On any per-file exception the handler itself raises
`NameError` (unbound local `entry`), ending the generator; later files are
never reached and no skip diagnostic is printed. -/
def gatherDirGo (base fmt : List Char) : List FileEntry → GatherOut
  | [] => ⟨[], none⟩
  | f :: fs =>
    let path := base ++ '/' :: f.name
    match filename2dateidx path with
    | .error _ => ⟨[], some (.nameError entryUnboundMsg)⟩
    | .ok (c, d, i, e) =>
      if f.decodeOk then
        let rest := gatherDirGo base fmt fs
        if e = fmt then ⟨.yielded path c d i e f.pix :: rest.steps, rest.post⟩
        else ⟨rest.steps, rest.post⟩
      else ⟨[], some (.nameError entryUnboundMsg)⟩

/-- Tar branch of `gather_images` (gvpreview.py lines 113-122): every entry
is tried; parse or decode failures print a skip diagnostic naming the entry
and the loop continues. -/
def gatherTarGo (fmt : List Char) : List FileEntry → List GatherStep
  | [] => []
  | f :: fs =>
    (match filename2dateidx f.name with
     | .error e => [.diag f.name e]
     | .ok (c, d, i, e) =>
       if f.decodeOk then
         if e = fmt then [.yielded f.name c d i e f.pix] else []
       else [.diag f.name decodeErr]) ++ gatherTarGo fmt fs

/-- Embedding of `gather_images` (gvpreview.py lines 101-122). -/
def gather_images (src : Source) (fmt : List Char) : GatherOut :=
  match src with
  | .dir base listing => gatherDirGo base fmt (listing.filter (fun f => globMatch fmt f.name))
  | .tar entries => ⟨gatherTarGo fmt entries, none⟩

/-- Observable events of one `make_composite` run, in order: skip
diagnostics forwarded from the generator, verbose insertion lines, the two
early-termination messages, the final `num_images` report, and the single
`imageio.imsave` call. -/
inductive Event
  | skipDiag (name : List Char) (err : PyErr)
  | inserted (name : List Char) (pos : Int × Int)
  | earlyCtrlC
  | earlyError (err : PyErr)
  | numImages (n : Nat)
  | writeOutput
  deriving Repr, DecidableEq, BEq

/-- The per-item loop of `make_composite` (gvpreview.py lines 167-178).
`steps` is the lazily-consumed generator output and `post` the exception the
generator raises after its last step; `intr` is the pending external
`KeyboardInterrupt`, counted in steps before it fires (the spec treats the
gap between items as the only cancellation point).  Any exception from the
loop body (`index2rowcol` range or order errors, the numpy broadcast error
for an out-of-window position) ends the loop: remaining generator steps are
never pulled.  Returns (events, successful-paste count, canvas). -/
def runLoop (rows cols : Nat) (order : List Char) (subdim : Nat × Nat)
    (verbose : Bool) :
    List GatherStep → Option PyErr → Option Nat → Nat → CompositeImage →
    List Event × Nat × CompositeImage
  | [], post, _, n, comp =>
    (match post with
     | some e => [Event.earlyError e]
     | none => [], n, comp)
  | step :: rest, post, intr, n, comp =>
    if intr = some 0 then ([Event.earlyCtrlC], n, comp)
    else
      let intr := intr.map (· - 1)
      match step with
      | .diag name err =>
        let (ev, n2, comp2) := runLoop rows cols order subdim verbose rest post intr n comp
        (Event.skipDiag name err :: ev, n2, comp2)
      | .yielded fname _ _ i _ pix =>
        match index2rowcol i rows cols order with
        | .error err => ([Event.earlyError err], n, comp)
        | .ok (r, c) =>
          if 0 ≤ r ∧ r < (rows : Int) ∧ 0 ≤ c ∧ c < (cols : Int) then
            let comp := comp.set_subimage (r, c) (downsize pix subdim)
            let ev0 := if verbose then [Event.inserted fname (r, c)] else []
            let (ev, n2, comp2) := runLoop rows cols order subdim verbose rest post intr (n + 1) comp
            (ev0 ++ ev, n2, comp2)
          else
            ([Event.earlyError (.valueError "could not broadcast input array")], n, comp)

/-- Embedding of `make_composite` (gvpreview.py lines 157-180): parse the
two dimension strings (failures propagate, nothing is written), build the
blank canvas, run the guarded per-item loop, then always report
`num_images` and write the canvas exactly once. -/
def make_composite (src : Source) (dims resize fmt order : List Char)
    (verbose : Bool) (interrupt : Option Nat) :
    Except PyErr (List Event × Nat) := do
  let superdim ← XbyY2XY dims
  let subdim ← XbyY2XY resize
  let comp := CompositeImage.blank superdim subdim
  let g := gather_images src fmt
  let (ev, n, _) :=
    runLoop superdim.1 superdim.2 order subdim verbose g.steps g.post interrupt 0 comp
  pure (ev ++ [Event.numImages n, Event.writeOutput], n)

/-- Whether an event is the final canvas write. -/
def Event.isWrite : Event → Bool
  | .writeOutput => true
  | _ => false

/-- Number of `writeOutput` events in a run trace. -/
def countWrites (ev : List Event) : Nat := ev.countP Event.isWrite

/-- Whether an event is a per-item skip diagnostic. -/
def Event.isSkip : Event → Bool
  | .skipDiag _ _ => true
  | _ => false

/-- Number of skip diagnostics in a run trace. -/
def countSkips (ev : List Event) : Nat := ev.countP Event.isSkip

/-- Whether an event is a verbose insertion line. -/
def Event.isInserted : Event → Bool
  | .inserted _ _ => true
  | _ => false

/-- Number of verbose insertion lines in a run trace. -/
def countInserted (ev : List Event) : Nat := ev.countP Event.isInserted

/-- Filenames of the images a gather run yields, in order. -/
def yieldNames : List GatherStep → List (List Char)
  | [] => []
  | .yielded fname _ _ _ _ _ :: rest => fname :: yieldNames rest
  | .diag _ _ :: rest => yieldNames rest

/-- Number of skip diagnostics a gather run prints. -/
def diagCount : List GatherStep → Nat
  | [] => 0
  | .diag _ _ :: rest => diagCount rest + 1
  | .yielded _ _ _ _ _ _ :: rest => diagCount rest

/-- Lexicographic (byte) order on names, nonstrict. -/
def lexLe : List Char → List Char → Bool
  | [], _ => true
  | _ :: _, [] => false
  | a :: as, b :: bs => if a < b then true else if a = b then lexLe as bs else false

/-- Whether a name list is lexicographically nondecreasing. -/
def sortedNames : List (List Char) → Bool
  | [] => true
  | [_] => true
  | a :: b :: r => lexLe a b && sortedNames (b :: r)

/-- All-zero pixel content used by the concrete test images. -/
def zeroPix : Pix := fun _ _ _ => 0

/-- A decodable file entry with the given name. -/
def okEntry (s : String) : FileEntry := ⟨s.toList, true, zeroPix⟩

/-- A concrete mixed batch of five images for a 2 by 2 grid (capacity 4):
two unparseable names, then an image with out-of-range stored index 4
(sequence number 5), then two valid images (stored indices 0 and 1). -/
def batch5 : List FileEntry :=
  [okEntry "badname1.jpg", okEntry "badname2.jpg",
   okEntry "CAM_2018_10_25_11_30_00_01_5.jpg",
   okEntry "CAM_2018_10_25_11_30_00_01_1.jpg",
   okEntry "CAM_2018_10_25_11_30_00_01_2.jpg"]

/-- Two well-formed directory entries whose filesystem order is not
lexicographic. -/
def entryB : FileEntry := okEntry "b_2018_10_25_11_30_00_01_1.jpg"

/-- Companion entry to `entryB`; sorts before it lexicographically. -/
def entryA : FileEntry := okEntry "a_2018_10_25_11_30_00_01_1.jpg"

/-- A directory entry whose name does not parse. -/
def entryBad : FileEntry := okEntry "badname.jpg"

/-- A well-formed directory entry used as the successfully enumerated
prefix in concrete directory runs. -/
def entryGood : FileEntry := okEntry "CAM_2018_10_25_11_30_00_01_1.jpg"

/-- A second well-formed entry, never reached in the failing directory
runs. -/
def entryGood2 : FileEntry := okEntry "CAM_2018_10_25_11_30_00_01_2.jpg"

/-- A directory-branch file entry yields an image: it decodes and its parsed
extension equals the requested format. -/
def entryYields (base fmt : List Char) (f : FileEntry) : Prop :=
  f.decodeOk = true ∧
    ∃ c d i, filename2dateidx (base ++ '/' :: f.name) = .ok (c, d, i, fmt)

/-- A directory-branch file entry fails inside the per-file try block:
its name does not parse, or the decoder rejects it. -/
def entryProcessErr (base : List Char) (f : FileEntry) : Prop :=
  (∃ e, filename2dateidx (base ++ '/' :: f.name) = .error e) ∨ f.decodeOk = false

theorem takeWhile_all_append {α : Type} {p : α → Bool} {l1 : List α}
    (l2 : List α) (h : l1.all p = true) :
    (l1 ++ l2).takeWhile p = l1 ++ l2.takeWhile p := by
  induction l1 with
  | nil => simp
  | cons a l ih =>
    simp only [List.all_cons, Bool.and_eq_true] at h
    simp [List.takeWhile_cons, h.1, ih h.2]

theorem dropWhile_all_append {α : Type} {p : α → Bool} {l1 : List α}
    (l2 : List α) (h : l1.all p = true) :
    (l1 ++ l2).dropWhile p = l2.dropWhile p := by
  induction l1 with
  | nil => simp
  | cons a l ih =>
    simp only [List.all_cons, Bool.and_eq_true] at h
    simp [List.dropWhile_cons, h.1, ih h.2]

/-- C2: for all `index`, `rows`, `cols` with `0 ≤ index < rows*cols`, the
grid mapper with order "colsright" returns exactly
`(index mod rows, index div rows)` (Euclidean mod and div, which agree with
the mathematical zero-based row/column reading for a natural grid). -/
theorem c2_colsright_formula (index : Int) (rows cols : Nat)
    (h0 : 0 ≤ index) (h1 : index < (rows : Int) * (cols : Int)) :
    index2rowcol index rows cols ("colsright".toList) =
      .ok (index % (rows : Int), index / (rows : Int)) := by
  have _ := h0
  have hne : ¬ ((rows : Int) * (cols : Int) ≤ index) := not_le.mpr h1
  unfold index2rowcol
  rw [if_pos (by decide : toLowerList ("colsright".toList) = "colsright".toList), if_neg hne]
  rw [Int.fmod_eq_emod index (by positivity), Int.fdiv_eq_ediv index (by positivity)]

/-- Witness for `c2_colsright_formula` at index 10 in a 5 by 5 grid. -/
theorem c2_colsright_formula_witness :
    index2rowcol 10 5 5 ("colsright".toList) = .ok (10 % 5, 10 / 5) :=
  c2_colsright_formula 10 5 5 (by decide) (by decide)

/-- C5: order "colsleft" takes the same branch result as "colsright" (the
source returns before its NotImplementedError line), while "rowsdown" and
"rowsup" raise NotImplementedError (the spec's UnsupportedOrder) for every
in-range index instead of returning a position. -/
theorem c5_colsleft_alias_rows_unsupported (index rows cols : Int) :
    index2rowcol index rows cols ("colsleft".toList) =
      index2rowcol index rows cols ("colsright".toList) ∧
    (0 ≤ index → index < rows * cols →
      index2rowcol index rows cols ("rowsdown".toList) =
        .error (.notImplementedError "rowsdown not done yet") ∧
      index2rowcol index rows cols ("rowsup".toList) =
        .error (.notImplementedError "rowsup not done yet")) := by
  refine ⟨?_, fun _ h1 => ⟨?_, ?_⟩⟩
  · unfold index2rowcol
    by_cases h : rows * cols ≤ index
    · rw [if_pos h, if_pos h]
    · rw [if_neg h, if_neg h]
      rfl
  · unfold index2rowcol
    rw [if_neg (not_le.mpr h1)]
    rfl
  · unfold index2rowcol
    rw [if_neg (not_le.mpr h1)]
    rfl

/-- Witness for `c5_colsleft_alias_rows_unsupported` at index 3 in a 2 by 2
grid. -/
theorem c5_colsleft_alias_rows_unsupported_witness :
    index2rowcol 3 2 2 ("colsleft".toList) = index2rowcol 3 2 2 ("colsright".toList) ∧
    index2rowcol 3 2 2 ("rowsdown".toList) =
      .error (.notImplementedError "rowsdown not done yet") ∧
    index2rowcol 3 2 2 ("rowsup".toList) =
      .error (.notImplementedError "rowsup not done yet") :=
  ⟨(c5_colsleft_alias_rows_unsupported 3 2 2).1,
   (c5_colsleft_alias_rows_unsupported 3 2 2).2 (by decide) (by decide)⟩

/-- C6: whenever `index ≥ rows*cols` the grid mapper fails with the
IndexOutOfRange ValueError, for every order string, because the range check
runs before the order is inspected. -/
theorem c6_out_of_range (index rows cols : Int) (order : List Char)
    (h : rows * cols ≤ index) :
    index2rowcol index rows cols order =
      .error (.valueError "index is larger than it should be given rowsXcols") := by
  unfold index2rowcol
  rw [if_pos h]

/-- Witness for `c6_out_of_range` at the boundary index rows*cols. -/
theorem c6_out_of_range_witness :
    index2rowcol 25 5 5 ("colsright".toList) =
      .error (.valueError "index is larger than it should be given rowsXcols") :=
  c6_out_of_range 25 5 5 ("colsright".toList) (by decide)

/-- C7 counterexample: the string "1x2x" does not match the spec's anchored
grammar, yet the dimension parser accepts it and returns (1, 2): re.match
never anchors at the end, so trailing characters are not rejected. -/
theorem c7_counterexample :
    matchesAnchoredXbyY ("1x2x".toList) = false ∧
      XbyY2XY ("1x2x".toList) = .ok (1, 2) := by
  exact ⟨rfl, rfl⟩

/-- C7 amended: the dimension parser succeeds exactly on strings that begin
with a `\d+[xX]\d+` match; trailing characters after the second digit run
are accepted, and every other string fails with ValueError. -/
theorem c7_amended_start_anchored (s : List Char) :
    (∃ p, XbyY2XY s = .ok p) ↔ xbyyStartForm s := by
  constructor
  · rintro ⟨p, hp⟩
    unfold XbyY2XY at hp
    rcases hd : s.dropWhile pyIsDigit with _ | ⟨c, r2⟩ <;> rw [hd] at hp <;> dsimp only at hp
    · exact absurd hp (by simp)
    · by_cases hcond : s.takeWhile pyIsDigit ≠ [] ∧ (c = 'x' ∨ c = 'X')
      · rw [if_pos hcond] at hp
        by_cases hd2 : r2.takeWhile pyIsDigit ≠ []
        · refine ⟨s.takeWhile pyIsDigit, c, r2.takeWhile pyIsDigit, r2.dropWhile pyIsDigit,
            ?_, hcond.1, List.all_takeWhile, hcond.2, hd2, List.all_takeWhile⟩
          rw [List.append_assoc, List.cons_append, List.takeWhile_append_dropWhile, ← hd,
            List.takeWhile_append_dropWhile]
        · rw [if_neg hd2] at hp
          exact absurd hp (by simp)
      · rw [if_neg hcond] at hp
        exact absurd hp (by simp)
  · rintro ⟨d1, c, d2, rest, rfl, h1, h2, h3, h4, h5⟩
    have hcx : pyIsDigit c = false := by
      rcases h3 with rfl | rfl <;> decide
    have ht : List.takeWhile pyIsDigit (d1 ++ c :: d2 ++ rest) = d1 := by
      rw [List.append_assoc, List.cons_append, takeWhile_all_append _ h2,
        List.takeWhile_cons, hcx]
      simp
    have hdw : List.dropWhile pyIsDigit (d1 ++ c :: d2 ++ rest) = c :: (d2 ++ rest) := by
      rw [List.append_assoc, List.cons_append, dropWhile_all_append _ h2,
        List.dropWhile_cons, hcx]
      simp
    have ht2 : (d2 ++ rest).takeWhile pyIsDigit = d2 ++ rest.takeWhile pyIsDigit :=
      takeWhile_all_append _ h5
    refine ⟨(digitsToNat d1, digitsToNat ((d2 ++ rest).takeWhile pyIsDigit)), ?_⟩
    unfold XbyY2XY
    rw [hdw]
    dsimp only
    rw [if_pos ⟨by rw [ht]; exact h1, h3⟩]
    rw [if_pos ?side, ht]
    case side =>
      rw [ht2]
      rcases d2 with _ | ⟨a, d2t⟩
      · exact absurd rfl h4
      · simp

/-- C4: pasting an exactly cell-sized image at an in-grid position
hard-overwrites precisely the sub-rectangle
`[row*cell_h, (row+1)*cell_h) x [col*cell_w, (col+1)*cell_w)` with the image
(no blending), and every in-bounds raster pixel outside that window keeps
its previous value. -/
theorem c4_paste_window (ci : CompositeImage) (row col : Nat) (img : Pix)
    (hr : row < ci.dims.1) (hc : col < ci.dims.2) :
    (∀ r c k, r < ci.subdims.1 → c < ci.subdims.2 →
      (ci.set_subimage ((row : Int), (col : Int)) img).image
        (row * ci.subdims.1 + r) (col * ci.subdims.2 + c) k = img r c k) ∧
    (∀ r c k, r < ci.dims.1 * ci.subdims.1 → c < ci.dims.2 * ci.subdims.2 →
      (r < row * ci.subdims.1 ∨ (row + 1) * ci.subdims.1 ≤ r ∨
        c < col * ci.subdims.2 ∨ (col + 1) * ci.subdims.2 ≤ c) →
      (ci.set_subimage ((row : Int), (col : Int)) img).image r c k = ci.image r c k) := by
  have _ := hr
  have _ := hc
  constructor
  · intro r c k hrr hcc
    unfold CompositeImage.set_subimage
    dsimp only
    rw [if_pos ?cond]
    case cond =>
      have h1 : ((r : Int)) < ci.subdims.1 := by exact_mod_cast hrr
      have h2 : ((c : Int)) < ci.subdims.2 := by exact_mod_cast hcc
      have h3 : (0 : Int) ≤ (r : Int) := Int.natCast_nonneg r
      have h4 : (0 : Int) ≤ (c : Int) := Int.natCast_nonneg c
      refine ⟨by push_cast; linarith, by push_cast; linarith,
        by push_cast; linarith, by push_cast; linarith⟩
    have e1 : ((↑(row * ci.subdims.1 + r) : Int) - ↑row * ↑ci.subdims.1) = (r : Int) := by
      push_cast; ring
    have e2 : ((↑(col * ci.subdims.2 + c) : Int) - ↑col * ↑ci.subdims.2) = (c : Int) := by
      push_cast; ring
    rw [e1, e2, Int.toNat_natCast, Int.toNat_natCast]
  · intro r c k hb1 hb2 hout
    have _ := hb1
    have _ := hb2
    unfold CompositeImage.set_subimage
    dsimp only
    rw [if_neg ?ncond]
    case ncond =>
      rintro ⟨a1, a2, a3, a4⟩
      have a1n : row * ci.subdims.1 ≤ r := by exact_mod_cast a1
      have a2n : r < row * ci.subdims.1 + ci.subdims.1 := by exact_mod_cast a2
      have a3n : col * ci.subdims.2 ≤ c := by exact_mod_cast a3
      have a4n : c < col * ci.subdims.2 + ci.subdims.2 := by exact_mod_cast a4
      rcases hout with h | h | h | h
      · exact absurd h (by linarith)
      · rw [add_mul, one_mul] at h
        exact absurd h (by linarith)
      · exact absurd h (by linarith)
      · rw [add_mul, one_mul] at h
        exact absurd h (by linarith)

/-- A concrete 2 by 3 canvas with 100 by 100 cells and a nonzero prior
raster, used to witness the paste frame property. -/
def canvasDemo : CompositeImage :=
  ⟨(2, 3), (100, 100), fun r c k => r + c + k⟩

/-- A constant-valued cell-sized test image. -/
def imgFive : Pix := fun _ _ _ => 5

/-- Witness for `c4_paste_window`: after pasting at cell (0,0) of the demo
canvas, pixel (3,4) inside the window holds the pasted value and pixel
(150,150) outside the window is unchanged. -/
theorem c4_paste_window_witness :
    (canvasDemo.set_subimage ((0 : Nat), (0 : Nat)) imgFive).image 3 4 1 = imgFive 3 4 1 ∧
    (canvasDemo.set_subimage ((0 : Nat), (0 : Nat)) imgFive).image 150 150 0 =
      canvasDemo.image 150 150 0 :=
  ⟨(c4_paste_window canvasDemo 0 0 imgFive (by decide) (by decide)).1 3 4 1
      (by decide) (by decide),
   (c4_paste_window canvasDemo 0 0 imgFive (by decide) (by decide)).2 150 150 0
      (by decide) (by decide) (by decide)⟩

/-- The skip diagnostic carried by an unparseable filename. -/
def parseFailErr : PyErr :=
  .valueError "does not seem to be in the correct file naming format"

/-- C1 counterexample: in the five-image tar batch with two unparseable
names and one out-of-range index (placed before the two valid images), the
run ends with 0 successful pastes and only 2 skip diagnostics, not the
claimed 2 pastes and 3 diagnostics: the out-of-range ValueError is caught
outside the loop, so it terminates the whole loop instead of skipping the
single item, and the two valid images are never processed. -/
theorem c1_counterexample :
    (make_composite (.tar batch5) ("2x2".toList) ("10x10".toList) ("jpg".toList)
        ("colsright".toList) false none).map
      (fun p => (p.2, countSkips p.1, countWrites p.1)) = .ok (0, 2, 1) := by
  rfl

/-- C1 amended: in the directory branch a parse or decode failure raises
NameError and in the orchestrator loop a map or paste failure terminates
the loop, so only parse and decode failures of tar entries are per-item
skips.  For the five-image tar batch (two unparseable names, then an
out-of-range index, then two valid images) the run produces exactly two
skip diagnostics, then the out-of-range early-termination error, reports
zero pastes, and still writes output exactly once. -/
theorem c1_amended_trace :
    make_composite (.tar batch5) ("2x2".toList) ("10x10".toList) ("jpg".toList)
        ("colsright".toList) false none =
      .ok ([Event.skipDiag ("badname1.jpg".toList) parseFailErr,
            Event.skipDiag ("badname2.jpg".toList) parseFailErr,
            Event.earlyError (.valueError "index is larger than it should be given rowsXcols"),
            Event.numImages 0, Event.writeOutput], 0) := by
  rfl

theorem runLoop_counts (rows cols : Nat) (order : List Char) (subdim : Nat × Nat)
    (verbose : Bool) (steps : List GatherStep) :
    ∀ (post : Option PyErr) (intr : Option Nat) (n : Nat) (comp : CompositeImage),
      countWrites (runLoop rows cols order subdim verbose steps post intr n comp).1 = 0 ∧
      (verbose = true →
        (runLoop rows cols order subdim verbose steps post intr n comp).2.1 =
          n + countInserted (runLoop rows cols order subdim verbose steps post intr n comp).1) := by
  induction steps with
  | nil =>
    intro post intr n comp
    cases post <;> simp [runLoop, countWrites, countInserted, Event.isWrite, Event.isInserted]
  | cons step rest ih =>
    intro post intr n comp
    by_cases hi : intr = some 0
    · simp [runLoop, hi, countWrites, countInserted, Event.isWrite, Event.isInserted]
    · rcases step with ⟨name, err⟩ | ⟨fname, cam, date, i, ext, pix⟩
      · obtain ⟨h1, h2⟩ := ih post (intr.map (· - 1)) n comp
        rcases hX : runLoop rows cols order subdim verbose rest post (intr.map (· - 1)) n comp
          with ⟨ev, n2, comp2⟩
        rw [hX] at h1 h2
        have hred : runLoop rows cols order subdim verbose
            (GatherStep.diag name err :: rest) post intr n comp
            = (Event.skipDiag name err :: ev, n2, comp2) := by
          simp [runLoop, if_neg hi, hX]
        rw [hred]
        refine ⟨?_, fun hv => ?_⟩
        · simpa [countWrites, List.countP_cons, Event.isWrite] using h1
        · have h3 := h2 hv
          simp only at h3
          simpa [countInserted, List.countP_cons, Event.isInserted] using h3
      · rcases hmap : index2rowcol i rows cols order with errp | pos
        · have hred : runLoop rows cols order subdim verbose
              (GatherStep.yielded fname cam date i ext pix :: rest) post intr n comp
              = ([Event.earlyError errp], n, comp) := by
            simp [runLoop, if_neg hi, hmap]
          rw [hred]
          simp [countWrites, countInserted, Event.isWrite, Event.isInserted]
        · rcases pos with ⟨r, c⟩
          by_cases hwin : (0 : Int) ≤ r ∧ r < (rows : Int) ∧ (0 : Int) ≤ c ∧ c < (cols : Int)
          · obtain ⟨h1, h2⟩ := ih post (intr.map (· - 1)) (n + 1)
              (comp.set_subimage (r, c) (downsize pix subdim))
            rcases hX : runLoop rows cols order subdim verbose rest post (intr.map (· - 1))
                (n + 1) (comp.set_subimage (r, c) (downsize pix subdim))
              with ⟨ev, n2, comp2⟩
            rw [hX] at h1 h2
            have hred : runLoop rows cols order subdim verbose
                (GatherStep.yielded fname cam date i ext pix :: rest) post intr n comp
                = ((if verbose then [Event.inserted fname (r, c)] else []) ++ ev, n2, comp2) := by
              simp only [runLoop, if_neg hi, hmap]
              rw [if_pos hwin, hX]
            rw [hred]
            refine ⟨?_, fun hv => ?_⟩
            · cases verbose <;>
                simpa [countWrites, List.countP_append, List.countP_cons, Event.isWrite] using h1
            · subst hv
              have h3 := h2 rfl
              simp only at h3
              simp [countInserted, List.countP_append, List.countP_cons, Event.isInserted]
              simp only [countInserted] at h3
              omega
          · have hred : runLoop rows cols order subdim verbose
                (GatherStep.yielded fname cam date i ext pix :: rest) post intr n comp
                = ([Event.earlyError (.valueError "could not broadcast input array")], n, comp) := by
              simp only [runLoop, if_neg hi, hmap]
              rw [if_neg hwin]
            rw [hred]
            simp [countWrites, countInserted, Event.isWrite, Event.isInserted]

/-- C9: whenever the canvas is constructed (both dimension strings parse,
so `make_composite` reaches the loop), the raster is written exactly once
and the count of successfully pasted images is reported, for every source,
interrupt point and loop outcome — including zero pastes. -/
theorem c9_finalizes_once (src : Source) (dims resize fmt order : List Char)
    (verbose : Bool) (interrupt : Option Nat) (ev : List Event) (n : Nat)
    (h : make_composite src dims resize fmt order verbose interrupt = .ok (ev, n)) :
    countWrites ev = 1 ∧ Event.numImages n ∈ ev ∧
      (verbose = true → countInserted ev = n) := by
  unfold make_composite at h
  rcases h1 : XbyY2XY dims with e1 | superdim
  · rw [h1] at h
    exact absurd h (by simp [Bind.bind, Except.bind])
  rw [h1] at h
  rcases h2 : XbyY2XY resize with e2 | subdim
  · rw [h2] at h
    exact absurd h (by simp [Bind.bind, Except.bind])
  rw [h2] at h
  simp only [Bind.bind, Except.bind] at h
  rcases hX : runLoop superdim.1 superdim.2 order subdim verbose
      (gather_images src fmt).steps (gather_images src fmt).post interrupt 0
      (CompositeImage.blank superdim subdim)
    with ⟨lev, ln, lcomp⟩
  rw [hX] at h
  simp only [pure, Except.pure, Except.ok.injEq, Prod.mk.injEq] at h
  obtain ⟨hev, hn⟩ := h
  obtain ⟨w1, w2⟩ := runLoop_counts superdim.1 superdim.2 order subdim verbose
    (gather_images src fmt).steps (gather_images src fmt).post interrupt 0
    (CompositeImage.blank superdim subdim)
  rw [hX] at w1 w2
  simp only at w1 w2
  subst hev hn
  refine ⟨?_, ?_, fun hv => ?_⟩
  · unfold countWrites at w1 ⊢
    rw [List.countP_append, w1]
    rfl
  · simp
  · have h3 := w2 hv
    unfold countInserted at h3 ⊢
    rw [List.countP_append]
    have htail : List.countP Event.isInserted
        [Event.numImages ln, Event.writeOutput] = 0 := rfl
    rw [htail]
    omega

/-- Witness for `c9_finalizes_once`: a directory run that aborts with
NameError after one yielded image still writes exactly once and reports its
single paste. -/
theorem c9_finalizes_once_witness :
    countWrites [Event.earlyError (.nameError entryUnboundMsg),
        Event.numImages 1, Event.writeOutput] = 1 ∧
      Event.numImages 1 ∈ [Event.earlyError (.nameError entryUnboundMsg),
        Event.numImages 1, Event.writeOutput] := by
  have h := c9_finalizes_once (.dir ("d".toList) [entryGood, entryBad, entryGood2])
    ("10x10".toList) ("10x10".toList) ("jpg".toList) ("colsright".toList) false none
    [Event.earlyError (.nameError entryUnboundMsg), Event.numImages 1, Event.writeOutput] 1 rfl
  exact ⟨h.1, h.2.1⟩

theorem gatherDirGo_names (base fmt : List Char) :
    ∀ fl : List FileEntry, (∀ f ∈ fl, entryYields base fmt f) →
      yieldNames (gatherDirGo base fmt fl).steps =
          fl.map (fun f => base ++ '/' :: f.name) ∧
        (gatherDirGo base fmt fl).post = none := by
  intro fl
  induction fl with
  | nil => intro _; exact ⟨rfl, rfl⟩
  | cons f fs ih =>
    intro hall
    obtain ⟨hdec, c, d, i, hp⟩ := hall f (List.mem_cons_self f fs)
    obtain ⟨hn, hpost⟩ := ih (fun g hg => hall g (List.mem_cons_of_mem f hg))
    refine ⟨?_, ?_⟩ <;>
      simp [gatherDirGo, hp, hdec, yieldNames, hn, hpost]

/-- C8 counterexample: a directory whose filesystem (glob) order is
[b..., a...] is enumerated in exactly that order, which is not the
lexicographic order of the file names — `glob.glob` output is not sorted
and `gather_images` never sorts it. -/
theorem c8_counterexample :
    yieldNames (gather_images (.dir ("d".toList) [entryB, entryA]) ("jpg".toList)).steps =
        [("d/b_2018_10_25_11_30_00_01_1.jpg".toList),
         ("d/a_2018_10_25_11_30_00_01_1.jpg".toList)] ∧
      sortedNames (yieldNames
        (gather_images (.dir ("d".toList) [entryB, entryA]) ("jpg".toList)).steps) = false := by
  exact ⟨rfl, rfl⟩

/-- C8 amended: the directory enumerator yields the glob-matching files in
the order of the underlying directory listing (the order `glob.glob`
returns), prefixed by the directory path — deterministic given that listing,
but not sorted.  Stated for listings whose matching files all parse, decode
and carry the requested extension, since any failing file aborts the
directory enumeration. -/
theorem c8_amended_listing_order (base fmt : List Char) (listing : List FileEntry)
    (h : ∀ f ∈ listing, globMatch fmt f.name = true → entryYields base fmt f) :
    yieldNames (gather_images (.dir base listing) fmt).steps =
      (listing.filter (fun f => globMatch fmt f.name)).map
        (fun f => base ++ '/' :: f.name) := by
  unfold gather_images
  exact (gatherDirGo_names base fmt (listing.filter (fun f => globMatch fmt f.name))
    (fun f hf => h f (List.mem_filter.mp hf).1 (List.mem_filter.mp hf).2)).1

/-- Witness for `c8_amended_listing_order` on the two-entry listing in
filesystem order [b..., a...]. -/
theorem c8_amended_listing_order_witness :
    yieldNames (gather_images (.dir ("d".toList) [entryB, entryA]) ("jpg".toList)).steps =
      (([entryB, entryA].filter (fun f => globMatch ("jpg".toList) f.name)).map
        (fun f => ("d".toList) ++ '/' :: f.name)) := by
  refine c8_amended_listing_order ("d".toList) ("jpg".toList) [entryB, entryA] ?_
  intro f hf _
  simp only [List.mem_cons, List.not_mem_nil, or_false] at hf
  rcases hf with rfl | rfl
  · exact ⟨rfl, "b".toList, "2018_10_25_11_30_00_01".toList, 0, rfl⟩
  · exact ⟨rfl, "a".toList, "2018_10_25_11_30_00_01".toList, 0, rfl⟩

theorem gatherDirGo_fail (base fmt : List Char) (bad : FileEntry) (rl : List FileEntry)
    (hb : entryProcessErr base bad) :
    ∀ gl : List FileEntry, (∀ f ∈ gl, entryYields base fmt f) →
      (gatherDirGo base fmt (gl ++ bad :: rl)).post = some (.nameError entryUnboundMsg) ∧
      diagCount (gatherDirGo base fmt (gl ++ bad :: rl)).steps = 0 ∧
      yieldNames (gatherDirGo base fmt (gl ++ bad :: rl)).steps =
        gl.map (fun f => base ++ '/' :: f.name) := by
  intro gl
  induction gl with
  | nil =>
    intro _
    rcases hb with ⟨e, he⟩ | hdec
    · simp [gatherDirGo, he, diagCount, yieldNames]
    · rcases hp : filename2dateidx (base ++ '/' :: bad.name) with e | ⟨c, d, i, ext⟩
      · simp [gatherDirGo, hp, diagCount, yieldNames]
      · simp [gatherDirGo, hp, hdec, diagCount, yieldNames]
  | cons f fs ih =>
    intro hall
    obtain ⟨hdec, c, d, i, hp⟩ := hall f (List.mem_cons_self f fs)
    obtain ⟨q1, q2, q3⟩ := ih (fun g hg => hall g (List.mem_cons_of_mem f hg))
    refine ⟨?_, ?_, ?_⟩ <;>
      simp [gatherDirGo, hp, hdec, diagCount, yieldNames, q1, q2, q3]

/-- C10: for every directory listing split as well-behaved files, then one
file that fails filename parsing or decoding, then anything: the enumerator
ends by raising NameError (the skip handler reads the unbound local
`entry`), prints no skip diagnostic at all, and never enumerates the files
after the failing one — only the well-behaved prefix is yielded. -/
theorem c10_dir_nameerror (base fmt : List Char) (good : List FileEntry)
    (bad : FileEntry) (rest : List FileEntry)
    (hg : ∀ f ∈ good, globMatch fmt f.name = true → entryYields base fmt f)
    (hb1 : globMatch fmt bad.name = true) (hb2 : entryProcessErr base bad) :
    (gather_images (.dir base (good ++ bad :: rest)) fmt).post =
        some (.nameError entryUnboundMsg) ∧
      diagCount (gather_images (.dir base (good ++ bad :: rest)) fmt).steps = 0 ∧
      yieldNames (gather_images (.dir base (good ++ bad :: rest)) fmt).steps =
        (good.filter (fun f => globMatch fmt f.name)).map
          (fun f => base ++ '/' :: f.name) := by
  simp only [gather_images]
  rw [List.filter_append, List.filter_cons, if_pos hb1]
  exact gatherDirGo_fail base fmt bad (rest.filter (fun f => globMatch fmt f.name)) hb2
    (good.filter (fun f => globMatch fmt f.name))
    (fun f hf => hg f (List.mem_filter.mp hf).1 (List.mem_filter.mp hf).2)

/-- Witness for `c10_dir_nameerror` on the listing [good, bad, good2]: the
run raises NameError, prints no skip diagnostic, and yields only the first
file. -/
theorem c10_dir_nameerror_witness :
    (gather_images (.dir ("d".toList) [entryGood, entryBad, entryGood2])
        ("jpg".toList)).post = some (.nameError entryUnboundMsg) ∧
      diagCount (gather_images (.dir ("d".toList) [entryGood, entryBad, entryGood2])
        ("jpg".toList)).steps = 0 ∧
      yieldNames (gather_images (.dir ("d".toList) [entryGood, entryBad, entryGood2])
        ("jpg".toList)).steps =
        (([entryGood].filter (fun f => globMatch ("jpg".toList) f.name)).map
          (fun f => ("d".toList) ++ '/' :: f.name)) := by
  refine c10_dir_nameerror ("d".toList) ("jpg".toList) [entryGood] entryBad [entryGood2]
    ?_ rfl ?_
  · intro f hf _
    simp only [List.mem_cons, List.not_mem_nil, or_false] at hf
    subst hf
    exact ⟨rfl, "CAM".toList, "2018_10_25_11_30_00_01".toList, 0, rfl⟩
  · exact Or.inl ⟨parseFailErr, rfl⟩

theorem matchCI_decomp : ∀ (pat s m r : List Char), matchCI pat s = some (m, r) → s = m ++ r := by
  intro pat
  induction pat with
  | nil =>
    intro s m r h
    simp only [matchCI, Option.some.injEq, Prod.mk.injEq] at h
    obtain ⟨rfl, rfl⟩ := h
    rfl
  | cons a as ih =>
    intro s m r h
    cases s with
    | nil => simp [matchCI] at h
    | cons c cs =>
      simp only [matchCI] at h
      by_cases hc : Char.toLower c = Char.toLower a
      · rw [if_pos hc] at h
        rcases hm : matchCI as cs with _ | ⟨m2, r2⟩ <;> rw [hm] at h
        · cases h
        · simp only [Option.map_some', Option.some.injEq, Prod.mk.injEq] at h
          obtain ⟨hm1, hr1⟩ := h
          rw [← hm1, ← hr1, List.cons_append]
          exact congrArg (c :: ·) (ih cs m2 r2 hm)
      · rw [if_neg hc] at h
        cases h

theorem matchAltCI_decomp : ∀ (alts : List (List Char)) (s m r : List Char),
    matchAltCI alts s = some (m, r) → s = m ++ r := by
  intro alts
  induction alts with
  | nil => intro s m r h; cases h
  | cons alt alts ih =>
    intro s m r h
    simp only [matchAltCI] at h
    rcases hm : matchCI alt s with _ | ⟨m2, r2⟩ <;> rw [hm] at h
    · exact ih s m r h
    · simp only [Option.some.injEq, Prod.mk.injEq] at h
      obtain ⟨hm1, hr1⟩ := h
      rw [← hm1, ← hr1]
      exact matchCI_decomp alt s m2 r2 hm

theorem matchDotExt_decomp (s : List Char) (x : Char) (e r : List Char)
    (h : matchDotExt s = some (x, e, r)) : s = x :: (e ++ r) := by
  cases s with
  | nil => cases h
  | cons x0 s0 =>
    simp only [matchDotExt] at h
    by_cases hn : x0 = '\n'
    · rw [if_pos hn] at h
      cases h
    · rw [if_neg hn] at h
      rcases hm : matchAltCI extAlts s0 with _ | ⟨m2, r2⟩ <;> rw [hm] at h
      · cases h
      · simp only [Option.map_some', Option.some.injEq, Prod.mk.injEq] at h
        obtain ⟨hx, he, hr⟩ := h
        rw [← hx, ← he, ← hr]
        exact congrArg (x0 :: ·) (matchAltCI_decomp extAlts s0 m2 r2 hm)

theorem shrinkSeq_decomp : ∀ (dsRev rest ds : List Char) (x : Char) (e r : List Char),
    shrinkSeq dsRev rest = some (ds, x, e, r) →
      ds ≠ [] ∧ (dsRev.all pyIsDigit = true → ds.all pyIsDigit = true) ∧
      dsRev.reverse ++ rest = ds.reverse ++ x :: (e ++ r) := by
  intro dsRev
  induction dsRev with
  | nil => intro rest ds x e r h; cases h
  | cons d dsr ih =>
    intro rest ds x e r h
    simp only [shrinkSeq] at h
    rcases hm : matchDotExt rest with _ | ⟨x2, e2, r2⟩ <;> rw [hm] at h
    · obtain ⟨hne, hdig, heq⟩ := ih (d :: rest) ds x e r h
      refine ⟨hne, fun hd => hdig (by
        simp only [List.all_cons, Bool.and_eq_true] at hd
        exact hd.2), ?_⟩
      rw [List.reverse_cons, List.append_assoc, List.singleton_append]
      exact heq
    · simp only [Option.some.injEq, Prod.mk.injEq] at h
      obtain ⟨hds, hx, he, hr⟩ := h
      rw [← hds, ← hx, ← he, ← hr]
      exact ⟨by simp, fun hd => hd, by rw [matchDotExt_decomp rest x2 e2 r2 hm]⟩

theorem matchTail_decomp (s ds : List Char) (x : Char) (e r : List Char)
    (h : matchTail s = some (ds, x, e, r)) :
    s = '_' :: (ds ++ x :: (e ++ r)) ∧ ds ≠ [] ∧ ds.all pyIsDigit = true := by
  rw [matchTail.eq_def] at h
  split at h
  case h_2 => cases h
  case h_1 s0 =>
    by_cases hrun : s0.takeWhile pyIsDigit = []
    · rw [if_pos hrun] at h
      cases h
    · rw [if_neg hrun] at h
      rcases hm : shrinkSeq (s0.takeWhile pyIsDigit).reverse (s0.dropWhile pyIsDigit)
        with _ | ⟨ds2, x2, e2, r2⟩ <;> rw [hm] at h
      · cases h
      · simp only [Option.map_some', Option.some.injEq, Prod.mk.injEq] at h
        obtain ⟨hds, hx, he, hr⟩ := h
        obtain ⟨hne, hdig, heq⟩ := shrinkSeq_decomp _ _ _ _ _ _ hm
        rw [List.reverse_reverse] at heq
        have hall : ds2.all pyIsDigit = true := by
          refine hdig ?_
          rw [List.all_reverse]
          exact List.all_takeWhile
        refine ⟨?_, ?_, ?_⟩
        · rw [← hds]
          have : s0 = s0.takeWhile pyIsDigit ++ s0.dropWhile pyIsDigit :=
            (List.takeWhile_append_dropWhile pyIsDigit s0).symm
          rw [this, heq, ← hx, ← he, ← hr]
        · rw [← hds]
          intro hc
          exact hne (by simpa using congrArg List.reverse hc)
        · rw [← hds, List.all_reverse]
          exact hall

theorem matchNDigits_decomp : ∀ (k : Nat) (s d r : List Char),
    matchNDigits k s = some (d, r) → s = d ++ r := by
  intro k
  induction k with
  | zero =>
    intro s d r h
    simp only [matchNDigits, Option.some.injEq, Prod.mk.injEq] at h
    obtain ⟨h1, h2⟩ := h
    rw [← h1, ← h2]
    rfl
  | succ k ih =>
    intro s d r h
    cases s with
    | nil => cases h
    | cons c cs =>
      simp only [matchNDigits] at h
      by_cases hc : pyIsDigit c = true
      · rw [if_pos hc] at h
        rcases hm : matchNDigits k cs with _ | ⟨d2, r2⟩ <;> rw [hm] at h
        · cases h
        · simp only [Option.map_some', Option.some.injEq, Prod.mk.injEq] at h
          obtain ⟨h1, h2⟩ := h
          rw [← h1, ← h2, List.cons_append]
          exact congrArg (c :: ·) (ih cs d2 r2 hm)
      · rw [if_neg hc] at h
        cases h

theorem matchUPair_decomp (s p r : List Char) (h : matchUPair s = some (p, r)) :
    s = p ++ r := by
  rw [matchUPair.eq_def] at h
  split at h
  case h_2 => cases h
  case h_1 a b s0 =>
    by_cases hd : (pyIsDigit a && pyIsDigit b) = true
    · rw [if_pos hd] at h
      simp only [Option.some.injEq, Prod.mk.injEq] at h
      obtain ⟨h1, h2⟩ := h
      rw [← h1, ← h2]
      rfl
    · rw [if_neg hd] at h
      cases h

theorem matchUPairs_decomp : ∀ (k : Nat) (s ps r : List Char),
    matchUPairs k s = some (ps, r) → s = ps ++ r := by
  intro k
  induction k with
  | zero =>
    intro s ps r h
    simp only [matchUPairs, Option.some.injEq, Prod.mk.injEq] at h
    obtain ⟨h1, h2⟩ := h
    rw [← h1, ← h2]
    rfl
  | succ k ih =>
    intro s ps r h
    simp only [matchUPairs, Option.bind_eq_bind, Option.bind_eq_some, Option.pure_def,
      Option.some.injEq, Prod.mk.injEq] at h
    obtain ⟨⟨p1, s1⟩, hp1, ⟨p2, s2⟩, hp2, h4, h5⟩ := h
    rw [← h4, ← h5, matchUPair_decomp s p1 s1 hp1, ih s1 p2 s2 hp2,
      List.append_assoc]

theorem matchDateFixed_decomp (s d r : List Char)
    (h : matchDateFixed s = some (d, r)) : s = d ++ r := by
  simp only [matchDateFixed, Option.bind_eq_bind, Option.bind_eq_some, Option.pure_def,
    Option.some.injEq, Prod.mk.injEq] at h
  obtain ⟨⟨d4, s1⟩, hd4, ⟨ps, s2⟩, hps, h4, h5⟩ := h
  rw [← h4, ← h5, matchNDigits_decomp 4 s d4 s1 hd4, matchUPairs_decomp 5 s1 ps s2 hps,
    List.append_assoc]

theorem pairsThenTail_decomp : ∀ (s ps ds : List Char) (x : Char) (e r : List Char),
    pairsThenTail s = some (ps, ds, x, e, r) →
      s = ps ++ '_' :: (ds ++ x :: (e ++ r)) ∧ ds ≠ [] ∧ ds.all pyIsDigit = true := by
  intro s
  induction s using pairsThenTail.induct with
  | case1 a b s hdig ps0 ds0 x0 e0 r0 hrec ih =>
    intro ps ds x e r h
    simp only [pairsThenTail, hdig, if_true, hrec, Option.some.injEq, Prod.mk.injEq] at h
    obtain ⟨h1, h2, h3, h4, h5⟩ := h
    obtain ⟨e1, e2, e3⟩ := ih ps0 ds0 x0 e0 r0 hrec
    rw [← h1, ← h2, ← h3, ← h4, ← h5]
    refine ⟨?_, e2, e3⟩
    rw [List.cons_append, List.cons_append, List.cons_append]
    exact congrArg ('_' :: a :: b :: ·) e1
  | case2 a b s hdig hrec =>
    intro ps ds x e r h
    simp only [pairsThenTail, hdig, if_true, hrec] at h
    rcases hm : matchTail s with _ | ⟨ds1, x1, e1, r1⟩ <;> rw [hm] at h
    · cases h
    · simp only [Option.map_some', Option.some.injEq, Prod.mk.injEq] at h
      obtain ⟨h1, h2, h3, h4, h5⟩ := h
      obtain ⟨e1x, e2x, e3x⟩ := matchTail_decomp s ds1 x1 e1 r1 hm
      rw [← h1, ← h2, ← h3, ← h4, ← h5]
      refine ⟨?_, e2x, e3x⟩
      rw [List.cons_append, List.cons_append, List.cons_append, List.nil_append]
      exact congrArg ('_' :: a :: b :: ·) e1x
  | case3 a b s hdig =>
    intro ps ds x e r h
    simp only [pairsThenTail, hdig, if_false] at h
    cases h
  | case4 t hno =>
    intro ps ds x e r h
    rw [pairsThenTail.eq_def] at h
    split at h
    · exact absurd rfl (fun hc => hno _ _ _ hc)
    · cases h

theorem matchAfterCam_decomp (r0 d ds : List Char) (x : Char) (e rr : List Char)
    (h : matchAfterCam r0 = some (d, ds, x, e, rr)) :
    r0 = d ++ '_' :: (ds ++ x :: (e ++ rr)) ∧ ds ≠ [] ∧ ds.all pyIsDigit = true := by
  simp only [matchAfterCam, Option.bind_eq_bind, Option.bind_eq_some, Option.pure_def,
    Option.some.injEq, Prod.mk.injEq] at h
  obtain ⟨⟨dfix, s1⟩, hdf, ⟨ps, ds2, x2, e2, r2⟩, hpt, h1, h2, h3, h4, h5⟩ := h
  obtain ⟨q1, q2, q3⟩ := pairsThenTail_decomp s1 ps ds2 x2 e2 r2 hpt
  rw [← h1, ← h2, ← h3, ← h4, ← h5]
  refine ⟨?_, q2, q3⟩
  rw [matchDateFixed_decomp r0 dfix s1 hdf, q1, List.append_assoc]

theorem tryCamK_decomp (fn : List Char) : ∀ (k : Nat) (cam d ds : List Char) (x : Char)
    (e rr : List Char), tryCamK fn k = some (cam, d, ds, x, e, rr) →
      fn = cam ++ '_' :: (d ++ '_' :: (ds ++ x :: (e ++ rr))) ∧ ds ≠ [] ∧
        ds.all pyIsDigit = true := by
  intro k
  induction k with
  | zero => intro cam d ds x e rr h; cases h
  | succ k ih =>
    intro cam d ds x e rr h
    simp only [tryCamK] at h
    by_cases hsp : (fn.take (k + 1)).all (fun c => !(pyIsSpace c)) = true
    · rw [if_pos hsp] at h
      split at h
      next r0 heq =>
        rcases hmc : matchAfterCam r0 with _ | ⟨d1, ds1, x1, e1, r1⟩ <;> rw [hmc] at h <;>
          dsimp only at h
        · exact ih cam d ds x e rr h
        · simp only [Option.some.injEq, Prod.mk.injEq] at h
          obtain ⟨h1, h2, h3, h4, h5, h6⟩ := h
          obtain ⟨q1, q2, q3⟩ := matchAfterCam_decomp r0 d1 ds1 x1 e1 r1 hmc
          rw [← h1, ← h2, ← h3, ← h4, ← h5, ← h6]
          refine ⟨?_, q2, q3⟩
          conv_lhs => rw [← List.take_append_drop (k + 1) fn]
          rw [heq, q1]
      next => exact ih cam d ds x e rr h
    · rw [if_neg hsp] at h
      exact ih cam d ds x e rr h

/-- C3 counterexample: the parser accepts a filename whose trailing sequence
number is 0 and returns sequence index -1, a negative value: the source
subtracts 1 from the matched number without checking that it is at least
1. -/
theorem c3_counterexample :
    filename2dateidx ("CAM_2018_10_25_11_30_00_01_0.jpg".toList) =
        .ok ("CAM".toList, "2018_10_25_11_30_00_01".toList, -1, "jpg".toList) ∧
      ¬ (0 : Int) ≤ -1 := by
  exact ⟨rfl, by decide⟩

/-- C3 amended: for every path the parser accepts, the basename decomposes
as camname, underscore, date, underscore, sequence digits, one separator
character and the extension, and the returned index is exactly the value of
the sequence digit group minus 1 — hence at least -1, and non-negative
exactly when the matched number is at least 1 (it is -1 for a trailing 0). -/
theorem c3_amended_index_formula (path c d : List Char) (i : Int) (e : List Char)
    (h : filename2dateidx path = .ok (c, d, i, e)) :
    ∃ ds rest, ∃ x : Char, basename path = c ++ '_' :: (d ++ '_' :: (ds ++ x :: (e ++ rest))) ∧
      ds ≠ [] ∧ ds.all pyIsDigit = true ∧ i = (digitsToNat ds : Int) - 1 ∧ -1 ≤ i := by
  unfold filename2dateidx matchFileRegex at h
  rcases hm : tryCamK (basename path) (basename path).length
    with _ | ⟨cam, d1, ds1, x1, e1, r1⟩ <;> rw [hm] at h <;> dsimp only at h
  · cases h
  · simp only [Except.ok.injEq, Prod.mk.injEq] at h
    obtain ⟨h1, h2, h3, h4⟩ := h
    obtain ⟨q1, q2, q3⟩ := tryCamK_decomp (basename path) (basename path).length
      cam d1 ds1 x1 e1 r1 hm
    refine ⟨ds1, r1, x1, ?_, q2, q3, ?_, ?_⟩
    · rw [← h1, ← h2, ← h4]
      exact q1
    · rw [← h3]
    · rw [← h3]
      have : (0 : Int) ≤ (digitsToNat ds1 : Int) := Int.natCast_nonneg _
      omega

/-- Witness for `c3_amended_index_formula` on the spec's example filename
with sequence number 5, stored index 4. -/
theorem c3_amended_index_formula_witness :
    ∃ ds rest, ∃ x : Char, basename ("CAM1_2018_10_25_11_30_00_01_5.jpg".toList) =
        ("CAM1".toList) ++ '_' :: (("2018_10_25_11_30_00_01".toList) ++ '_' ::
          (ds ++ x :: (("jpg".toList) ++ rest))) ∧
      ds ≠ [] ∧ ds.all pyIsDigit = true ∧ (4 : Int) = (digitsToNat ds : Int) - 1 ∧
      (-1 : Int) ≤ 4 :=
  c3_amended_index_formula ("CAM1_2018_10_25_11_30_00_01_5.jpg".toList)
    ("CAM1".toList) ("2018_10_25_11_30_00_01".toList) 4 ("jpg".toList) rfl

/-- Witness for `c7_amended_start_anchored`: instantiated at "10x20", whose
acceptance by the parser yields the start-anchored decomposition. -/
theorem c7_amended_start_anchored_witness :
    xbyyStartForm ("10x20".toList) :=
  (c7_amended_start_anchored ("10x20".toList)).mp ⟨(10, 20), rfl⟩
